import Mathlib

/-!
Verification development for the MNIST training notebook (src/mnist.ipynb).

The notebook (cells 5, 8, 11, 14, 17, 20) fixes hyperparameters, splits the raw
MNIST training arrays into a training and a validation slice, builds an infinite
batch generator over the training indices, defines a LeNet-300-100 forward pass
with a log-softmax output, and defines cross-entropy loss and accuracy.

The numpy Mersenne-Twister generator is external to the repository; it is kept
abstract as a function giving, for each seed, the sequence of permutation draws,
together with the documented library contract that each draw of size n is a
permutation of range n.  Floating point arithmetic is modelled over the reals
and exact rationals.
-/

namespace HkMnist

/-- Hyperparameter from cell-5: learning rate 1e-2 for the optimiser. -/
def learning_rate : ℚ := 1 / 100

/-- Hyperparameter from cell-5: batch size 256. -/
def batch_size : Nat := 256

/-- Hyperparameter from cell-5: size of the flattened input vector, 28 * 28. -/
def input_size : Nat := 28 * 28

/-- Hyperparameter from cell-5: number of training epochs. -/
def num_epochs : Nat := 10

/-- Hyperparameter from cell-5: fraction of the training data held out for validation. -/
def validation_split : ℚ := 2 / 10

/-- Cell-8: val_samples = int(train_samples * validation_split).  Python int()
truncates toward zero, which coincides with the floor on the non-negative
values arising here (N, f being non-negative).  N is the raw sample count of the
loaded training arrays and f the validation fraction. -/
def val_samples (N : Nat) (f : ℚ) : Nat := (⌊(N : ℚ) * f⌋).toNat

/-- Cell-8: train_samples -= val_samples. -/
def train_samples (N : Nat) (f : ℚ) : Nat := N - val_samples N f

/-- Python slice xs[a:b] for a ≤ b: drop the first a elements, keep the next b - a. -/
def pySlice {α : Type} (xs : List α) (a b : Nat) : List α := (xs.drop a).take (b - a)

/-- Cell-8: the training slice xs[:train_samples] of a source array. -/
def train_part {α : Type} (xs : List α) (t : Nat) : List α := xs.take t

/-- Cell-8: the validation slice xs[train_samples:] of a source array. -/
def val_part {α : Type} (xs : List α) (t : Nat) : List α := xs.drop t

/-- The set of source-array row indices read by the training slice xs[:t]. -/
def train_index_set (t : Nat) : Finset Nat := Finset.range t

/-- The set of source-array row indices read by the validation slice xs[t:]
of a source array with N rows. -/
def val_index_set (t N : Nat) : Finset Nat := Finset.Ico t N

/-- Cell-8: num_complete_batches, leftover = divmod(train_samples, batch_size);
num_batches = num_complete_batches + bool(leftover). -/
def num_batches (n bs : Nat) : Nat := n / bs + (if n % bs = 0 then 0 else 1)

/-- Cell-8, inside data_stream: batch_idx = perm[i * batch_size : (i + 1) * batch_size]. -/
def batch_idx (perm : List Nat) (bs i : Nat) : List Nat :=
  pySlice perm (i * bs) ((i + 1) * bs)

/-- State of the data_stream generator between two yields: draws permutations
have already been drawn from its RandomState, and pos is the next within-epoch
batch index (invariant: pos < num_batches whenever the generator yields). -/
structure GenState where
  draws : Nat
  pos : Nat

/-- One step of the generator loop of data_stream (cell-8).  rng k n models the
k-th call rng.permutation(n) on the npr.RandomState owned by this generator.
When num_batches = 0 the inner for-loop body never runs and the while-loop
spins forever without yielding, modelled as none; otherwise the generator
yields the current index batch and advances to the next within-epoch position,
or draws a fresh permutation for the next epoch. -/
def gen_next (rng : Nat → Nat → List Nat) (n bs : Nat) (s : GenState) :
    Option (List Nat × GenState) :=
  let nb := num_batches n bs
  if nb = 0 then none
  else
    let perm := rng s.draws n
    let b := batch_idx perm bs s.pos
    if s.pos + 1 < nb then some (b, ⟨s.draws, s.pos + 1⟩)
    else some (b, ⟨s.draws + 1, 0⟩)

/-- The t-th index batch yielded by a generator resumed from state s
(none when the generator never yields again). -/
def gen_nth (rng : Nat → Nat → List Nat) (n bs : Nat) : GenState → Nat → Option (List Nat)
  | s, 0 => (gen_next rng n bs s).map (fun p => p.1)
  | s, t + 1 => (gen_next rng n bs s).bind (fun p => gen_nth rng n bs p.2 t)

/-- Cell-8 data_stream(): constructs a fresh npr.RandomState(0) — note the fixed
seed 0 — and yields index batches forever.  npPerm seed k n models the k-th
permutation(n) drawn from a RandomState initialised with seed; the
Mersenne-Twister internals live in numpy, outside this repository, so they stay
abstract.  Every generator returned by data_stream therefore reads the draw
sequence of seed 0 from its start. -/
def data_stream (npPerm : Nat → Nat → Nat → List Nat) (n bs : Nat) :
    Nat → Option (List Nat) :=
  gen_nth (npPerm 0) n bs ⟨0, 0⟩

/-- Numpy fancy indexing xs[idx]; d is a default for the out-of-range case,
which never occurs in this program because every index comes from a
permutation of range over the array length. -/
def numpy_take {α : Type} (xs : List α) (d : α) (idx : List Nat) : List α :=
  idx.map (fun j => xs.getD j d)

/-- The t-th (image, label) batch pair yielded by data_stream:
yield train_images[batch_idx], train_labels[batch_idx]. -/
def stream_yield {I L : Type} (npPerm : Nat → Nat → Nat → List Nat)
    (images : List I) (labels : List L) (di : I) (dl : L) (n bs t : Nat) :
    Option (List I × List L) :=
  (data_stream npPerm n bs t).map
    (fun bi => (numpy_take images di bi, numpy_take labels dl bi))

/-- Library contract of numpy RandomState.permutation(n): every draw is a
permutation of arange(n). -/
def IsPermDraws (rng : Nat → Nat → List Nat) : Prop :=
  ∀ k n, List.Perm (rng k n) (List.range n)

/-- A concrete executable stand-in for the abstract numpy permutation source,
used only to instantiate the theorems at concrete inputs: the k-th draw of
seed s is range n rotated by s + k. -/
def modelRng (s k n : Nat) : List Nat := (List.range n).rotate (s + k)

/-- The first epoch's worth of yields from a generator g over n training
samples with batch size bs. -/
def first_epoch (g : Nat → Option (List Nat)) (n bs : Nat) : List (Option (List Nat)) :=
  (List.range (num_batches n bs)).map g

/-! ### The model, loss and accuracy (cells 11 and 14), over the reals -/

/-- Parameters of the LeNet-300-100 network of cell-11: three hk.Linear layers
taking the flattened 784-pixel input through hidden widths 300 and 100 to 10
class outputs; each layer holds a weight matrix and a bias vector. -/
structure Params where
  w1 : Fin 784 → Fin 300 → ℝ
  b1 : Fin 300 → ℝ
  w2 : Fin 300 → Fin 100 → ℝ
  b2 : Fin 100 → ℝ
  w3 : Fin 100 → Fin 10 → ℝ
  b3 : Fin 10 → ℝ

/-- hk.Linear: affine map x ↦ x W + b on a single row. -/
noncomputable def linear {a b : Nat} (W : Fin a → Fin b → ℝ) (bias : Fin b → ℝ)
    (x : Fin a → ℝ) : Fin b → ℝ :=
  fun j => (∑ i, x i * W i j) + bias j

/-- jax.nn.relu, elementwise rectifier. -/
noncomputable def relu (x : ℝ) : ℝ := max x 0

/-- jax.nn.log_softmax along the class axis: v j - log (∑ exp v). -/
noncomputable def log_softmax {k : Nat} (v : Fin k → ℝ) : Fin k → ℝ :=
  fun j => v j - Real.log (∑ i, Real.exp (v i))

/-- Cell-11 forward_pass on one input row: Linear(300), relu, Linear(100), relu,
Linear(10), log_softmax, applied in sequence. -/
noncomputable def forward_pass (p : Params) (x : Fin 784 → ℝ) : Fin 10 → ℝ :=
  log_softmax (linear p.w3 p.b3
    (fun j => relu (linear p.w2 p.b2 (fun i => relu (linear p.w1 p.b1 x i)) j)))

/-- jnp.mean of a vector with m entries (division by zero when m = 0, as the
claims only concern batches with at least one row). -/
noncomputable def npMean {m : Nat} (v : Fin m → ℝ) : ℝ := (∑ r, v r) / m

/-- Cell-14 cross_entropy_loss after the y_pred binding:
-jnp.mean(jnp.sum(y_pred * y, axis=-1)) over a batch of m rows. -/
noncomputable def cross_entropy_of {m : Nat} (y_pred y : Fin m → Fin 10 → ℝ) : ℝ :=
  -(npMean (fun r => ∑ c, y_pred r c * y r c))

/-- Cell-14 cross_entropy_loss: first y_pred = network.apply(params, x), then the
negated mean of the row sums of y_pred * y. -/
noncomputable def cross_entropy_loss {m : Nat} (p : Params) (x : Fin m → Fin 784 → ℝ)
    (y : Fin m → Fin 10 → ℝ) : ℝ :=
  cross_entropy_of (fun r => forward_pass p (x r)) y

/-- jnp.argmax along the last axis of one row: the first index attaining the
maximum (a later entry replaces the current best only when strictly larger). -/
noncomputable def argmax10 (v : Fin 10 → ℝ) : Fin 10 :=
  (List.finRange 10).foldl (fun best j => if v best < v j then j else best) 0

/-- Cell-14 accuracy: jnp.mean(jnp.argmax(predictions, -1) == jnp.argmax(y, -1)),
the boolean comparison averaged as 1 for equal and 0 for different. -/
noncomputable def accuracy {m : Nat} (p : Params) (x : Fin m → Fin 784 → ℝ)
    (y : Fin m → Fin 10 → ℝ) : ℝ :=
  npMean (fun r => if argmax10 (forward_pass p (x r)) = argmax10 (y r) then (1 : ℝ) else 0)

/-- Spec-side reading of the cross-entropy sentence of the spec, for comparison
with the code-side cross_entropy_loss: the negative of the mean over batch rows
of the sum over classes of the predicted log-probability times the one-hot
target. -/
noncomputable def spec_cross_entropy {m : Nat} (p : Params) (x : Fin m → Fin 784 → ℝ)
    (y : Fin m → Fin 10 → ℝ) : ℝ :=
  -((∑ r, ∑ c, forward_pass p (x r) c * y r c) / m)

/-- Spec-side reading of the accuracy sentence of the spec, for comparison with
the code-side accuracy: the number of batch rows whose predicted arg-max class
equals the target arg-max class, divided by the number of rows. -/
noncomputable def spec_accuracy {m : Nat} (p : Params) (x : Fin m → Fin 784 → ℝ)
    (y : Fin m → Fin 10 → ℝ) : ℝ :=
  ((Finset.univ.filter
      (fun r : Fin m => argmax10 (forward_pass p (x r)) = argmax10 (y r))).card : ℝ) / m

/-- A target row is a valid one-hot vector: a single entry 1, all others 0. -/
def OneHot {k : Nat} (v : Fin k → ℝ) : Prop :=
  ∃ c, v c = 1 ∧ ∀ i, i ≠ c → v i = 0

/-- All-zero parameters, a concrete parameter set used to instantiate theorems. -/
noncomputable def zeroParams : Params :=
  ⟨fun _ _ => 0, fun _ => 0, fun _ _ => 0, fun _ => 0, fun _ _ => 0, fun _ => 0⟩

/-! ### Arithmetic facts about the batch count -/

lemma num_batches_pos {n bs : Nat} (hn : 1 ≤ n) (hbs : 1 ≤ bs) : 0 < num_batches n bs := by
  unfold num_batches
  by_cases h : n % bs = 0
  · have : 0 < n / bs := Nat.div_pos (Nat.le_of_dvd hn (Nat.dvd_of_mod_eq_zero h)) hbs
    omega
  · simp [h]

lemma le_num_batches_mul {n bs : Nat} (hbs : 1 ≤ bs) : n ≤ num_batches n bs * bs := by
  have hd := Nat.div_add_mod n bs
  have hc : bs * (n / bs) = n / bs * bs := Nat.mul_comm _ _
  have hm : n % bs < bs := Nat.mod_lt _ hbs
  unfold num_batches
  by_cases h : n % bs = 0 <;> simp [h, Nat.succ_mul] <;> omega

lemma pred_num_batches_mul_lt {n bs : Nat} (hn : 1 ≤ n) (hbs : 1 ≤ bs) :
    (num_batches n bs - 1) * bs < n := by
  have hd := Nat.div_add_mod n bs
  have hm : n % bs < bs := Nat.mod_lt _ hbs
  have hc : bs * (n / bs) = n / bs * bs := Nat.mul_comm _ _
  by_cases h : n % bs = 0
  · have h1 : bs ≤ n := Nat.le_of_dvd hn (Nat.dvd_of_mod_eq_zero h)
    have hnb : num_batches n bs = n / bs := by unfold num_batches; simp [h]
    have h2 : (n / bs - 1) * bs = n / bs * bs - bs := by
      rw [Nat.sub_mul, Nat.one_mul]
    rw [hnb]
    omega
  · have hnb : num_batches n bs = n / bs + 1 := by unfold num_batches; simp [h]
    rw [hnb, Nat.add_sub_cancel]
    omega

lemma num_batches_eq_ceil {n bs : Nat} (hbs : 1 ≤ bs) :
    num_batches n bs = (n + bs - 1) / bs := by
  have hd := Nat.div_add_mod n bs
  have hm : n % bs < bs := Nat.mod_lt _ hbs
  unfold num_batches
  by_cases h : n % bs = 0
  · have h1 : n + bs - 1 = bs * (n / bs) + (bs - 1) := by omega
    rw [h1, Nat.mul_add_div (by omega)]
    have h2 : (bs - 1) / bs = 0 := Nat.div_eq_of_lt (by omega)
    simp [h, h2]
  · have hsm : bs * (n / bs + 1) = bs * (n / bs) + bs := by ring
    have h1 : n + bs - 1 = bs * (n / bs + 1) + (n % bs - 1) := by omega
    rw [h1, Nat.mul_add_div (by omega)]
    have h2 : (n % bs - 1) / bs = 0 := Nat.div_eq_of_lt (by omega)
    simp [h, h2]

/-! ### Shape of a single index batch and of a whole epoch -/

lemma batch_idx_length (perm : List Nat) (bs i : Nat) :
    (batch_idx perm bs i).length = min bs (perm.length - i * bs) := by
  unfold batch_idx pySlice
  rw [List.length_take, List.length_drop]
  have h : (i + 1) * bs - i * bs = bs := by
    rw [Nat.succ_mul]; omega
  rw [h]

lemma flatten_chunks (xs : List Nat) (bs k : Nat) :
    ((List.range k).map (fun i => batch_idx xs bs i)).flatten = xs.take (k * bs) := by
  induction k with
  | zero => simp
  | succ k ih =>
    rw [List.range_succ, List.map_append, List.flatten_append, ih]
    simp only [List.map_cons, List.map_nil, List.flatten_cons, List.flatten_nil,
      List.append_nil]
    unfold batch_idx pySlice
    have h1 : (k + 1) * bs - k * bs = bs := by rw [Nat.succ_mul]; omega
    have h2 : k * bs + bs = (k + 1) * bs := (Nat.succ_mul k bs).symm
    rw [h1, ← List.take_add, h2]

lemma epoch_flatten {perm : List Nat} {n bs : Nat} (hbs : 1 ≤ bs)
    (hlen : perm.length = n) :
    ((List.range (num_batches n bs)).map (fun i => batch_idx perm bs i)).flatten = perm := by
  rw [flatten_chunks]
  exact List.take_of_length_le (by rw [hlen]; exact le_num_batches_mul hbs)

/-! ### Closed form of the generator -/

lemma gen_next_eq (rng : Nat → Nat → List Nat) (n bs : Nat) (s : GenState)
    (h : 0 < num_batches n bs) :
    gen_next rng n bs s =
      some (batch_idx (rng s.draws n) bs s.pos,
        if s.pos + 1 < num_batches n bs then ⟨s.draws, s.pos + 1⟩
        else (⟨s.draws + 1, 0⟩ : GenState)) := by
  unfold gen_next
  have h0 : ¬ num_batches n bs = 0 := by omega
  by_cases h1 : s.pos + 1 < num_batches n bs <;> simp [h0, h1]

lemma gen_nth_eq (rng : Nat → Nat → List Nat) (n bs : Nat) :
    ∀ (t : Nat) (s : GenState), s.pos < num_batches n bs →
      gen_nth rng n bs s t =
        some (batch_idx
          (rng ((s.draws * num_batches n bs + s.pos + t) / num_batches n bs) n) bs
          ((s.draws * num_batches n bs + s.pos + t) % num_batches n bs)) := by
  intro t
  induction t with
  | zero =>
    intro s hpos
    have h : 0 < num_batches n bs := by omega
    have hc : s.draws * num_batches n bs = num_batches n bs * s.draws := Nat.mul_comm _ _
    have e1 : s.draws * num_batches n bs + s.pos + 0
        = s.pos + num_batches n bs * s.draws := by omega
    have hdiv : (s.draws * num_batches n bs + s.pos + 0) / num_batches n bs = s.draws := by
      rw [e1, Nat.add_mul_div_left _ _ h, Nat.div_eq_of_lt hpos]
      omega
    have hmod : (s.draws * num_batches n bs + s.pos + 0) % num_batches n bs = s.pos := by
      rw [e1, Nat.add_mul_mod_self_left, Nat.mod_eq_of_lt hpos]
    rw [hdiv, hmod]
    simp [gen_nth, gen_next_eq rng n bs s h]
  | succ t ih =>
    intro s hpos
    have h : 0 < num_batches n bs := by omega
    rw [gen_nth, gen_next_eq rng n bs s h]
    by_cases h1 : s.pos + 1 < num_batches n bs
    · have ihs := ih ⟨s.draws, s.pos + 1⟩ h1
      simp only [h1, if_pos, Option.some_bind]
      rw [ihs]
      have e : s.draws * num_batches n bs + (s.pos + 1) + t
          = s.draws * num_batches n bs + s.pos + (t + 1) := by omega
      simp only [e]
    · have heq : s.pos + 1 = num_batches n bs := by omega
      have ihs := ih ⟨s.draws + 1, 0⟩ h
      rw [if_neg h1]
      simp only [Option.some_bind]
      rw [ihs]
      have hsm : (s.draws + 1) * num_batches n bs
          = s.draws * num_batches n bs + num_batches n bs := Nat.succ_mul _ _
      have e : (s.draws + 1) * num_batches n bs + 0 + t
          = s.draws * num_batches n bs + s.pos + (t + 1) := by omega
      simp only [e]

lemma data_stream_eq (npPerm : Nat → Nat → Nat → List Nat) (n bs t : Nat)
    (h : 0 < num_batches n bs) :
    data_stream npPerm n bs t =
      some (batch_idx (npPerm 0 (t / num_batches n bs) n) bs
        (t % num_batches n bs)) := by
  unfold data_stream
  have hs := gen_nth_eq (npPerm 0) n bs t ⟨0, 0⟩ h
  simpa using hs

lemma data_stream_none (npPerm : Nat → Nat → Nat → List Nat) (n bs t : Nat)
    (h : num_batches n bs = 0) :
    data_stream npPerm n bs t = none := by
  unfold data_stream
  cases t with
  | zero => simp [gen_nth, gen_next, h]
  | succ t => simp [gen_nth, gen_next, h]

/-! ### The startup split (claim C2) -/

lemma val_samples_le {N : Nat} {f : ℚ} (hf1 : f ≤ 1) : val_samples N f ≤ N := by
  unfold val_samples
  rw [Int.toNat_le]
  calc ⌊(N : ℚ) * f⌋ ≤ ⌊(N : ℚ)⌋ :=
        Int.floor_le_floor (mul_le_of_le_one_right (Nat.cast_nonneg N) hf1)
    _ = (N : ℤ) := Int.floor_natCast N

/-- Claim C2: for every dataset of size N and validation fraction f (with
0 ≤ f ≤ 1, as in the program where f = 0.2), the startup split produces a
validation slice of size ⌊N·f⌋ and a training slice of size N − ⌊N·f⌋, the two
slices read disjoint source-row indices, and the split sizes sum to N. -/
theorem C2_split_sizes {α : Type} (N : Nat) (f : ℚ) (hf0 : 0 ≤ f) (hf1 : f ≤ 1)
    (xs : List α) (hxs : xs.length = N) :
    (val_part xs (train_samples N f)).length = val_samples N f ∧
    (train_part xs (train_samples N f)).length = N - val_samples N f ∧
    Disjoint (train_index_set (train_samples N f)) (val_index_set (train_samples N f) N) ∧
    (train_part xs (train_samples N f)).length + (val_part xs (train_samples N f)).length
      = N := by
  have hle : val_samples N f ≤ N := val_samples_le hf1
  unfold train_samples train_part val_part train_index_set val_index_set
  refine ⟨?_, ?_, ?_, ?_⟩
  · rw [List.length_drop, hxs]; omega
  · rw [List.length_take, hxs]; omega
  · rw [Finset.disjoint_left]
    intro a ha hb
    rw [Finset.mem_range] at ha
    rw [Finset.mem_Ico] at hb
    omega
  · rw [List.length_take, List.length_drop, hxs]; omega

/-- Witness for C2 at N = 10, f = 2/10 (the program's validation_split) on the
source list range 10: validation size 2, training size 8. -/
theorem C2_split_sizes_witness :
    (val_part (List.range 10) (train_samples 10 (2 / 10))).length = val_samples 10 (2 / 10) ∧
    (train_part (List.range 10) (train_samples 10 (2 / 10))).length
      = 10 - val_samples 10 (2 / 10) ∧
    Disjoint (train_index_set (train_samples 10 (2 / 10)))
      (val_index_set (train_samples 10 (2 / 10)) 10) ∧
    (train_part (List.range 10) (train_samples 10 (2 / 10))).length
      + (val_part (List.range 10) (train_samples 10 (2 / 10))).length = 10 :=
  C2_split_sizes 10 (2 / 10) (by norm_num) (by norm_num) (List.range 10) (by simp)

/-! ### Batch shapes, epoch structure and non-termination (claims C3, C4, C9) -/

/-- Claim C3: for every batch size b ≥ 1, every (image, label) pair yielded by
the batch generator has image row count equal to label row count, and that
common row count is at most b. -/
theorem C3_batch_shape {I L : Type} (npPerm : Nat → Nat → Nat → List Nat)
    (images : List I) (labels : List L) (di : I) (dl : L) (n b : Nat) (hb : 1 ≤ b)
    (t : Nat) (pr : List I × List L)
    (h : stream_yield npPerm images labels di dl n b t = some pr) :
    pr.1.length = pr.2.length ∧ pr.1.length ≤ b := by
  by_cases hnb : num_batches n b = 0
  · rw [stream_yield, data_stream_none npPerm n b t hnb] at h
    simp at h
  · rw [stream_yield, data_stream_eq npPerm n b t (by omega)] at h
    simp only [Option.map_some'] at h
    rw [Option.some_inj] at h
    subst h
    unfold numpy_take
    refine ⟨by simp, ?_⟩
    rw [List.length_map, batch_idx_length]
    omega

/-- Witness for C3 with the concrete permutation source, three training rows and
batch size 2: the second yielded batch is the single pair (30, 7). -/
theorem C3_batch_shape_witness :
    stream_yield modelRng [10, 20, 30] [5, 6, 7] 0 0 3 2 1 = some ([30], [7]) ∧
    (([30] : List Nat).length = ([7] : List Nat).length ∧ ([30] : List Nat).length ≤ 2) :=
  ⟨by decide, C3_batch_shape modelRng [10, 20, 30] [5, 6, 7] 0 0 3 2 (by decide) 1
    ([30], [7]) (by decide)⟩

/-- Claim C4: each epoch of the batch generator slices a freshly drawn
permutation of the training indices into contiguous chunks: the number of
chunks is ⌈n / bs⌉, their concatenation is exactly the drawn permutation —
hence together they contain every training index exactly once — every chunk
except possibly the last has exactly bs elements, and no chunk exceeds bs. -/
theorem C4_epoch_structure (rng : Nat → Nat → List Nat) (hrng : IsPermDraws rng)
    (n bs : Nat) (hbs : 1 ≤ bs) (e : Nat) :
    num_batches n bs = (n + bs - 1) / bs ∧
    ((List.range (num_batches n bs)).map (fun i => batch_idx (rng e n) bs i)).flatten
      = rng e n ∧
    List.Perm
      ((List.range (num_batches n bs)).map (fun i => batch_idx (rng e n) bs i)).flatten
      (List.range n) ∧
    (∀ i, i + 1 < num_batches n bs → (batch_idx (rng e n) bs i).length = bs) ∧
    (∀ i, i < num_batches n bs → (batch_idx (rng e n) bs i).length ≤ bs) := by
  have hlen : (rng e n).length = n := by
    rw [(hrng e n).length_eq, List.length_range]
  have hflat := @epoch_flatten (rng e n) n bs hbs hlen
  refine ⟨num_batches_eq_ceil hbs, hflat, ?_, ?_, ?_⟩
  · rw [hflat]; exact hrng e n
  · intro i hi
    have hn1 : 1 ≤ n := by
      by_contra hn0
      have : n = 0 := by omega
      subst this
      unfold num_batches at hi
      simp at hi
    have hlt : (num_batches n bs - 1) * bs < n := pred_num_batches_mul_lt hn1 hbs
    have hil : (i + 1) * bs ≤ (num_batches n bs - 1) * bs :=
      Nat.mul_le_mul_right bs (by omega)
    have hsm : (i + 1) * bs = i * bs + bs := Nat.succ_mul i bs
    rw [batch_idx_length, hlen]
    omega
  · intro i _
    rw [batch_idx_length]
    omega

/-- Witness for C4 with the concrete permutation source, n = 5, bs = 2, epoch 1:
three chunks, the first two of size 2, concatenating to the rotated permutation
of range 5. -/
theorem C4_epoch_structure_witness :
    num_batches 5 2 = (5 + 2 - 1) / 2 ∧
    ((List.range (num_batches 5 2)).map
      (fun i => batch_idx (modelRng 0 1 5) 2 i)).flatten = modelRng 0 1 5 ∧
    List.Perm
      ((List.range (num_batches 5 2)).map
        (fun i => batch_idx (modelRng 0 1 5) 2 i)).flatten
      (List.range 5) ∧
    (∀ i, i + 1 < num_batches 5 2 → (batch_idx (modelRng 0 1 5) 2 i).length = 2) ∧
    (∀ i, i < num_batches 5 2 → (batch_idx (modelRng 0 1 5) 2 i).length ≤ 2) :=
  C4_epoch_structure (modelRng 0)
    (fun k m => List.rotate_perm (List.range m) (0 + k)) 5 2 (by decide) 1

/-- Claim C9: the generator's lazy sequence never terminates by itself — when
the training set is non-empty (and the batch size is positive, as configured),
every request for the t-th batch produces a batch, and a non-empty one. -/
theorem C9_stream_total (npPerm : Nat → Nat → Nat → List Nat)
    (hperm : IsPermDraws (npPerm 0)) (n bs : Nat) (hn : 1 ≤ n) (hbs : 1 ≤ bs)
    (t : Nat) :
    ∃ bi, data_stream npPerm n bs t = some bi ∧ bi ≠ [] := by
  have hpos : 0 < num_batches n bs := num_batches_pos hn hbs
  refine ⟨_, data_stream_eq npPerm n bs t hpos, ?_⟩
  have hlen : (npPerm 0 (t / num_batches n bs) n).length = n := by
    rw [(hperm (t / num_batches n bs) n).length_eq, List.length_range]
  have hi : t % num_batches n bs < num_batches n bs := Nat.mod_lt _ hpos
  have hlt : (num_batches n bs - 1) * bs < n := pred_num_batches_mul_lt hn hbs
  have hil : t % num_batches n bs * bs ≤ (num_batches n bs - 1) * bs :=
    Nat.mul_le_mul_right bs (by omega)
  have hpos2 : 0 < (batch_idx (npPerm 0 (t / num_batches n bs) n) bs
      (t % num_batches n bs)).length := by
    rw [batch_idx_length, hlen]
    omega
  exact List.length_pos.mp hpos2

/-- Witness for C9 with the concrete permutation source, n = 3, bs = 2, at
request index t = 5. -/
theorem C9_stream_total_witness :
    ∃ bi, data_stream modelRng 3 2 5 = some bi ∧ bi ≠ [] :=
  C9_stream_total modelRng (fun k m => List.rotate_perm (List.range m) (0 + k))
    3 2 (by decide) (by decide) 5

/-! ### Restarting the generator (claims C1 and C10) -/

/-- Counterexample to claim C1 as stated: restarting the batch generator with a
fresh data_stream() call reproduces exactly the original first epoch — in the
model at n = 4, bs = 2 both first epochs are [[0, 1], [2, 3]] — so the restarted
sequence's first-epoch batch contents do not differ from the original first
epoch's contents.  The equality is forced for every permutation source, because
each data_stream() call builds its own npr.RandomState with the same fixed
seed 0. -/
theorem C1_counterexample :
    first_epoch (data_stream modelRng 4 2) 4 2 = [some [0, 1], some [2, 3]] ∧
    ¬ first_epoch (data_stream modelRng 4 2) 4 2
        ≠ first_epoch (data_stream modelRng 4 2) 4 2 := by
  decide

/-- Claim C1 amended: restarting the batch generator (a fresh data_stream()
call) after consuming exactly one full epoch's worth of batches yields the SAME
permutation, not a new one — the restarted sequence's first-epoch batches are
identical to the original first epoch's, because each data_stream() call
constructs its own npr.RandomState(0) with the same fixed seed — while indeed
covering the same total set of sample indices: every training index exactly
once. -/
theorem C1_restart_same_permutation (npPerm : Nat → Nat → Nat → List Nat)
    (hperm : IsPermDraws (npPerm 0)) (n bs : Nat) (hn : 1 ≤ n) (hbs : 1 ≤ bs)
    (g g2 : Nat → Option (List Nat))
    (hg : g = data_stream npPerm n bs) (hg2 : g2 = data_stream npPerm n bs) :
    first_epoch g2 n bs = first_epoch g n bs ∧
    List.Perm ((List.range (num_batches n bs)).map (fun t => (g2 t).getD [])).flatten
      (List.range n) := by
  subst hg
  subst hg2
  refine ⟨rfl, ?_⟩
  have hpos : 0 < num_batches n bs := num_batches_pos hn hbs
  have hmap : (List.range (num_batches n bs)).map
      (fun t => ((data_stream npPerm n bs t).getD []))
      = (List.range (num_batches n bs)).map (fun t => batch_idx (npPerm 0 0 n) bs t) := by
    apply List.map_congr_left
    intro t ht
    rw [List.mem_range] at ht
    rw [data_stream_eq npPerm n bs t hpos]
    simp [Nat.div_eq_of_lt ht, Nat.mod_eq_of_lt ht]
  rw [hmap]
  have hlen : (npPerm 0 0 n).length = n := by
    rw [(hperm 0 n).length_eq, List.length_range]
  rw [epoch_flatten hbs hlen]
  exact hperm 0 n

/-- Witness for the amended C1 with the concrete permutation source at
n = 6, bs = 2. -/
theorem C1_restart_same_permutation_witness :
    first_epoch (data_stream modelRng 6 2) 6 2
      = first_epoch (data_stream modelRng 6 2) 6 2 ∧
    List.Perm ((List.range (num_batches 6 2)).map
      (fun t => ((data_stream modelRng 6 2 t).getD []))).flatten (List.range 6) :=
  C1_restart_same_permutation modelRng
    (fun k m => List.rotate_perm (List.range m) (0 + k)) 6 2 (by decide) (by decide)
    (data_stream modelRng 6 2) (data_stream modelRng 6 2) rfl rfl

/-- Claim C10: any two generators created by calling data_stream() produce
identical batch sequences, because each call constructs its own npr.RandomState
with the same fixed seed 0; the batch ordering is therefore fully deterministic
across restarts and across runs. -/
theorem C10_restart_deterministic (npPerm : Nat → Nat → Nat → List Nat) (n bs : Nat)
    (g g2 : Nat → Option (List Nat))
    (hg : g = data_stream npPerm n bs) (hg2 : g2 = data_stream npPerm n bs) (t : Nat) :
    g t = g2 t := by
  subst hg
  subst hg2
  rfl

/-- Witness for C10 with the concrete permutation source at n = 4, bs = 3,
batch request t = 9. -/
theorem C10_restart_deterministic_witness :
    data_stream modelRng 4 3 9 = data_stream modelRng 4 3 9 :=
  C10_restart_deterministic modelRng 4 3 (data_stream modelRng 4 3)
    (data_stream modelRng 4 3) rfl rfl 9

/-! ### Loss and accuracy formulas (claims C5, C6, C7, C8) -/

/-- Claim C5: for every parameter set and every batch, cross_entropy_loss equals
the negative of the mean over batch rows of the sum over classes of the
elementwise product of the model's predicted log-probabilities with the one-hot
targets. -/
theorem C5_cross_entropy_formula {m : Nat} (p : Params) (x : Fin m → Fin 784 → ℝ)
    (y : Fin m → Fin 10 → ℝ) :
    cross_entropy_loss p x y = spec_cross_entropy p x y := by
  unfold cross_entropy_loss cross_entropy_of npMean spec_cross_entropy
  rfl

/-- Claim C6: for every parameter set and every batch, accuracy equals the
fraction of batch rows whose predicted arg-max class equals the arg-max class of
the one-hot target row. -/
theorem C6_accuracy_formula {m : Nat} (p : Params) (x : Fin m → Fin 784 → ℝ)
    (y : Fin m → Fin 10 → ℝ) :
    accuracy p x y = spec_accuracy p x y := by
  unfold accuracy spec_accuracy npMean
  rw [Finset.sum_boole]

/-- Every entry of a log_softmax output is non-positive (the class dimension
being non-empty). -/
lemma log_softmax_nonpos {k : Nat} [NeZero k] (v : Fin k → ℝ) (j : Fin k) :
    log_softmax v j ≤ 0 := by
  unfold log_softmax
  rw [sub_nonpos]
  have hpos : (0 : ℝ) < ∑ i, Real.exp (v i) :=
    Finset.sum_pos (fun i _ => Real.exp_pos (v i)) Finset.univ_nonempty
  rw [Real.le_log_iff_exp_le hpos]
  exact Finset.single_le_sum (fun i _ => (Real.exp_pos (v i)).le) (Finset.mem_univ j)

/-- Every entry of the network's output is non-positive: the output layer is a
log_softmax. -/
lemma forward_pass_nonpos (p : Params) (x : Fin 784 → ℝ) (c : Fin 10) :
    forward_pass p x c ≤ 0 := by
  unfold forward_pass
  exact log_softmax_nonpos _ c

/-- Claim C7: for every batch whose targets are valid one-hot rows and whose
predicted outputs are normalized log-probabilities (every entry at most 0, as
the log-softmax output layer produces), the cross-entropy loss is
non-negative. -/
theorem C7_loss_nonneg {m : Nat} (y_pred y : Fin m → Fin 10 → ℝ)
    (hpred : ∀ r c, y_pred r c ≤ 0) (hy : ∀ r, OneHot (y r)) :
    0 ≤ cross_entropy_of y_pred y := by
  have hrw : cross_entropy_of y_pred y
      = -((∑ r, ∑ c, y_pred r c * y r c) / m) := rfl
  rw [hrw, neg_nonneg]
  have hterm : ∀ r : Fin m, (∑ c, y_pred r c * y r c) ≤ 0 := by
    intro r
    apply Finset.sum_nonpos
    intro c _
    have hyc : 0 ≤ y r c := by
      obtain ⟨c0, h1, h0⟩ := hy r
      by_cases hc : c = c0
      · rw [hc, h1]; norm_num
      · rw [h0 c hc]
    exact mul_nonpos_iff.mpr (Or.inr ⟨hpred r c, hyc⟩)
  have hS : (∑ r, ∑ c, y_pred r c * y r c) ≤ 0 :=
    Finset.sum_nonpos (fun r _ => hterm r)
  have hm : (0 : ℝ) ≤ (m : ℝ) := Nat.cast_nonneg m
  exact div_nonpos_iff.mpr (Or.inr ⟨hS, hm⟩)

/-- Witness for C7 on a one-row batch: all predictions -1 and the one-hot target
at class 0. -/
theorem C7_loss_nonneg_witness :
    0 ≤ cross_entropy_of (fun _ _ => (-1 : ℝ) : Fin 1 → Fin 10 → ℝ)
        (fun _ c => if c = 0 then (1 : ℝ) else 0) :=
  @C7_loss_nonneg 1 (fun _ _ => (-1 : ℝ)) (fun _ c => if c = 0 then (1 : ℝ) else 0)
    (fun r c => by norm_num) (fun r => ⟨0, by norm_num, fun i hi => by simp [hi]⟩)

/-- Claim C8: accuracy and cross_entropy_loss are pure functions of their
arguments — two calls with identical parameters and identical data yield the
same value, for every batch size of at least one row. -/
theorem C8_pure_deterministic {m : Nat} (hm : 1 ≤ m) (p p2 : Params)
    (x x2 : Fin m → Fin 784 → ℝ) (y y2 : Fin m → Fin 10 → ℝ)
    (hp : p = p2) (hx : x = x2) (hy : y = y2) :
    accuracy p x y = accuracy p2 x2 y2 ∧
    cross_entropy_loss p x y = cross_entropy_loss p2 x2 y2 := by
  subst hp
  subst hx
  subst hy
  exact ⟨rfl, rfl⟩

/-- Witness for C8 on a one-row batch of zeros with the all-zero parameters. -/
theorem C8_pure_deterministic_witness :
    accuracy zeroParams (fun _ _ => 0 : Fin 1 → Fin 784 → ℝ)
        (fun _ _ => 0 : Fin 1 → Fin 10 → ℝ)
      = accuracy zeroParams (fun _ _ => 0 : Fin 1 → Fin 784 → ℝ)
        (fun _ _ => 0 : Fin 1 → Fin 10 → ℝ) ∧
    cross_entropy_loss zeroParams (fun _ _ => 0 : Fin 1 → Fin 784 → ℝ)
        (fun _ _ => 0 : Fin 1 → Fin 10 → ℝ)
      = cross_entropy_loss zeroParams (fun _ _ => 0 : Fin 1 → Fin 784 → ℝ)
        (fun _ _ => 0 : Fin 1 → Fin 10 → ℝ) :=
  @C8_pure_deterministic 1 (by decide) zeroParams zeroParams
    (fun _ _ => 0) (fun _ _ => 0) (fun _ _ => 0) (fun _ _ => 0) rfl rfl rfl

end HkMnist
